import Mathlib

/-!
Verification of the `cfssljson` output extractor (`cmd/cfssljson/cfssljson.go`).

The Go program reads a JSON document (either a "bare" object or a CFSSL
response envelope), extracts certificate artifacts from it, and writes each
artifact to a file, to stdout, or to stdout as a single JSON object.

This file gives a shallow embedding of the core `writeOutput` function and
its collaborators (`Response` unmarshalling, standard base64 decoding and
encoding, JSON marshalling of the output dictionary), and proves the spec
claims about it.

Modelling conventions:
* A parsed JSON document is a `JValue`; Go's `map[string]interface{}` is an
  association list `List (String × JValue)` with first-match lookup.
* Go strings are Lean `String`s; the raw bytes produced by base64 decoding
  are represented as characters with code points below 256.
* `writeErrorAndExit` and runtime panics both abort the process; they are
  modelled as the error branch of an `Except`.  Errors reported through
  `writeErrorAndExit` (a clean diagnostic plus exit status 1) are
  distinguished from Go runtime panics raised by failed `.(string)` type
  assertions (an ambiguous crash with a stack trace): the predicate
  `WError.isCleanExit` separates the two.
-/

/-- JSON values, as produced by `encoding/json` unmarshalling.  Numbers are
modelled as integers (no claim involves a non-integral number). -/
inductive JValue where
  | str (s : String)
  | num (n : Int)
  | bool (b : Bool)
  | null
  | arr (elems : List JValue)
  | obj (fields : List (String × JValue))
deriving Repr

/-- An unwrapped mapping: Go's `map[string]interface{}`. -/
abbrev JObj := List (String × JValue)

/-- Lookup in a JSON object, mirroring Go map indexing `input["k"]`
(with its comma-ok result encoded as `Option`). -/
def jlookup (m : JObj) (k : String) : Option JValue :=
  match m with
  | [] => none
  | (k1, v) :: rest => if k1 = k then some v else jlookup rest k

/-- The ways `writeOutput` can abort.  The first four correspond to
`writeErrorAndExit` call sites; `panicTypeAssert` models the Go runtime
panic raised by a failed `contents.(string)` type assertion. -/
inductive WError where
  /-- "Failed to parse JSON: ..." (bare mode) or "Failed to parse input: ..." -/
  | parseError
  /-- "Request failed:" followed by each error message (envelope `success=false`). -/
  | requestFailed (messages : List String)
  /-- "inner bundle parsing failed!" or "root parsing failed!". -/
  | bundleParse (msg : String)
  /-- "Failed to parse ocspResponse: ..." with the undecodable input as cause. -/
  | base64Decode (cause : String)
  /-- Go runtime panic from `v.(string)` on a non-string value under `field`. -/
  | panicTypeAssert (field : String)
deriving Repr, DecidableEq

/-- True for errors reported via `writeErrorAndExit` (clean diagnostic and
exit code 1); false for the runtime type-assertion panic. -/
def WError.isCleanExit : WError → Bool
  | .panicTypeAssert _ => false
  | _ => true

/-- One output artifact (`outputFile` in the Go source). -/
structure OutputFile where
  Filename : String
  Contents : String
  IsBinary : Bool
  Perms : Nat
deriving Repr, DecidableEq

/-- `v.(string)` — a bare Go type assertion: panics unless `v` is a string. -/
def asString (field : String) : JValue → Except WError String
  | .str s => .ok s
  | _ => .error (.panicTypeAssert field)

/-- The `if contents, ok := input[k1]; ok { ... } else if contents, ok = input[k2]; ok { ... }`
pattern: the primary key, else the alias, else the empty string. -/
def lookupAlias (m : JObj) (k1 k2 : String) : Except WError String :=
  match jlookup m k1 with
  | some v => asString k1 v
  | none =>
    match jlookup m k2 with
    | some v => asString k2 v
    | none => .ok ""

/-- Certificate step: `cert`, alias `certificate`; emit `<base>.pem`
(text, mode 0664) when non-empty. -/
def certStep (b : String) (m : JObj) (outs : List OutputFile) :
    Except WError (List OutputFile) :=
  match lookupAlias m "cert" "certificate" with
  | .error e => .error e
  | .ok cert =>
    .ok (outs ++ if cert = "" then [] else [⟨b ++ ".pem", cert, false, 0o664⟩])

/-- Key step: `key`, alias `private_key`; emit `<base>-key.pem`
(text, mode 0600) when non-empty. -/
def keyStep (b : String) (m : JObj) (outs : List OutputFile) :
    Except WError (List OutputFile) :=
  match lookupAlias m "key" "private_key" with
  | .error e => .error e
  | .ok key =>
    .ok (outs ++ if key = "" then [] else [⟨b ++ "-key.pem", key, false, 0o600⟩])

/-- Encrypted-key step: `encrypted_key`, no alias, no emptiness check; emit
`<base>-key.enc` (binary, mode 0600) whenever the key is present. -/
def encKeyStep (b : String) (m : JObj) (outs : List OutputFile) :
    Except WError (List OutputFile) :=
  match jlookup m "encrypted_key" with
  | none => .ok outs
  | some v =>
    match asString "encrypted_key" v with
    | .error e => .error e
    | .ok encKey => .ok (outs ++ [⟨b ++ "-key.enc", encKey, true, 0o600⟩])

/-- CSR step: `csr`, alias `certificate_request`; emit `<base>.csr`
(text, mode 0644) when non-empty. -/
def csrStep (b : String) (m : JObj) (outs : List OutputFile) :
    Except WError (List OutputFile) :=
  match lookupAlias m "csr" "certificate_request" with
  | .error e => .error e
  | .ok csr =>
    .ok (outs ++ if csr = "" then [] else [⟨b ++ ".csr", csr, false, 0o644⟩])

/-- Bundle step: if `input["result"]` is a mapping whose `bundle` key is a
mapping, that inner mapping must hold strings under `bundle` and `root`
(else `writeErrorAndExit`); emit `<base>-bundle.pem` (chain + newline + root)
and `<base>-root.pem`, both text, mode 0644. -/
def bundleStep (b : String) (m : JObj) (outs : List OutputFile) :
    Except WError (List OutputFile) :=
  match jlookup m "result" with
  | some (.obj result) =>
    match jlookup result "bundle" with
    | some (.obj bundle) =>
      match jlookup bundle "bundle" with
      | some (.str certificateBundle) =>
        match jlookup bundle "root" with
        | some (.str rootCertificate) =>
          .ok (outs ++
            [⟨b ++ "-bundle.pem", certificateBundle ++ "\n" ++ rootCertificate,
              false, 0o644⟩,
             ⟨b ++ "-root.pem", rootCertificate, false, 0o644⟩])
        | _ => .error (.bundleParse "root parsing failed!")
      | _ => .error (.bundleParse "inner bundle parsing failed!")
    | _ => .ok outs
  | _ => .ok outs

/-! ### Standard base64 (`encoding/base64.StdEncoding`)

Go's `StdEncoding.DecodeString` uses the standard alphabet with mandatory
`=` padding, ignores `\r` and `\n` anywhere in the input, rejects any other
character outside the alphabet, and (being non-strict) ignores unused
trailing bits in the final quantum. -/

/-- Index of a character in the standard base64 alphabet. -/
def b64Index (c : Char) : Option Nat :=
  if 'A' ≤ c ∧ c ≤ 'Z' then some (c.toNat - 'A'.toNat)
  else if 'a' ≤ c ∧ c ≤ 'z' then some (c.toNat - 'a'.toNat + 26)
  else if '0' ≤ c ∧ c ≤ '9' then some (c.toNat - '0'.toNat + 52)
  else if c = '+' then some 62
  else if c = '/' then some 63
  else none

/-- Decode a newline-free character stream, four characters at a time;
`none` on any corrupt input (bad character, bad padding, short final group). -/
def b64DecodeCore : List Char → Option (List Nat)
  | [] => some []
  | c1 :: c2 :: c3 :: c4 :: rest =>
    match b64Index c1, b64Index c2 with
    | some i1, some i2 =>
      if c3 = '=' then
        if c4 = '=' ∧ rest = [] then some [i1 * 4 + i2 / 16]
        else none
      else
        match b64Index c3 with
        | some i3 =>
          if c4 = '=' then
            if rest = [] then some [i1 * 4 + i2 / 16, i2 % 16 * 16 + i3 / 4]
            else none
          else
            match b64Index c4 with
            | some i4 =>
              match b64DecodeCore rest with
              | some bs =>
                some ((i1 * 4 + i2 / 16) :: (i2 % 16 * 16 + i3 / 4) ::
                      (i3 % 4 * 64 + i4) :: bs)
              | none => none
            | none => none
        | none => none
    | _, _ => none
  | _ => none

/-- `base64.StdEncoding.DecodeString`: drop CR/LF, decode; the resulting
bytes are represented as characters with code points below 256. -/
def b64Decode (s : String) : Option String :=
  match b64DecodeCore (s.data.filter fun c => c ≠ '\n' ∧ c ≠ '\r') with
  | some bytes => some (String.mk (bytes.map Char.ofNat))
  | none => none

/-- UTF-8 bytes of one character (Go strings are byte strings; a Lean
`String` models one through its UTF-8 encoding). -/
def charUtf8 (c : Char) : List Nat :=
  let n := c.toNat
  if n < 0x80 then [n]
  else if n < 0x800 then [0xC0 + n / 0x40, 0x80 + n % 0x40]
  else if n < 0x10000 then
    [0xE0 + n / 0x1000, 0x80 + n / 0x40 % 0x40, 0x80 + n % 0x40]
  else
    [0xF0 + n / 0x40000, 0x80 + n / 0x1000 % 0x40, 0x80 + n / 0x40 % 0x40,
     0x80 + n % 0x40]

/-- The UTF-8 byte sequence of a string. -/
def strBytes (s : String) : List Nat := (s.data.map charUtf8).flatten

/-- The standard base64 alphabet character for a 6-bit value. -/
def b64Char (n : Nat) : Char :=
  "ABCDEFGHIJKLMNOPQRSTUVWXYZabcdefghijklmnopqrstuvwxyz0123456789+/".data.getD n 'A'

/-- Encode a byte sequence in standard base64 with padding. -/
def b64EncodeCore : List Nat → List Char
  | [] => []
  | [a] => [b64Char (a / 4), b64Char (a % 4 * 16), '=', '=']
  | [a, b] =>
    [b64Char (a / 4), b64Char (a % 4 * 16 + b / 16), b64Char (b % 16 * 4), '=']
  | a :: b :: c :: rest =>
    b64Char (a / 4) :: b64Char (a % 4 * 16 + b / 16) ::
    b64Char (b % 16 * 4 + c / 64) :: b64Char (c % 64) :: b64EncodeCore rest

/-- `base64.StdEncoding.EncodeToString([]byte(s))`. -/
def b64Encode (s : String) : String := String.mk (b64EncodeCore (strBytes s))

/-- OCSP step: `ocspResponse`, base64-encoded; decode failure aborts via
`writeErrorAndExit`; emit `<base>-response.der` (binary, mode 0644) holding
the decoded bytes. -/
def ocspStep (b : String) (m : JObj) (outs : List OutputFile) :
    Except WError (List OutputFile) :=
  match jlookup m "ocspResponse" with
  | none => .ok outs
  | some v =>
    match asString "ocspResponse" v with
    | .error e => .error e
    | .ok contents =>
      match b64Decode contents with
      | none => .error (.base64Decode contents)
      | some resp => .ok (outs ++ [⟨b ++ "-response.der", resp, true, 0o644⟩])

/-- Field extraction: the six steps of `writeOutput` after unwrapping, in
source order, threading the accumulated artifact list. -/
def extractFields (b : String) (m : JObj) : Except WError (List OutputFile) :=
  Except.bind (certStep b m [])
    (fun o1 => Except.bind (keyStep b m o1)
      (fun o2 => Except.bind (encKeyStep b m o2)
        (fun o3 => Except.bind (csrStep b m o3)
          (fun o4 => Except.bind (bundleStep b m o4)
            (fun o5 => ocspStep b m o5)))))

/-! ### Envelope unmarshalling (`json.Unmarshal` into `Response`) -/

/-- `ResponseMessage` from the Go source (the `Code` field's JSON tag is
literally `"int"` in the source). -/
structure ResponseMessage where
  Code : Int
  Message : String
deriving Repr, DecidableEq

/-- `Response`: the CFSSL API envelope. -/
structure Response where
  Success : Bool
  Result : JObj
  Errors : List ResponseMessage
  Messages : List ResponseMessage
deriving Repr

/-- Unmarshal one element of `errors`/`messages`.  A JSON `null` leaves the
zero value; a present field of the wrong type is an unmarshal error. -/
def unmarshalMessage : JValue → Option ResponseMessage
  | .null => some ⟨0, ""⟩
  | .obj kvs => do
    let code ← match jlookup kvs "int" with
      | none => some 0
      | some .null => some 0
      | some (.num n) => some n
      | some _ => none
    let msg ← match jlookup kvs "message" with
      | none => some ""
      | some .null => some ""
      | some (.str s) => some s
      | some _ => none
    some ⟨code, msg⟩
  | _ => none

/-- Unmarshal a `messages`/`errors` list field. -/
def unmarshalMessages : Option JValue → Option (List ResponseMessage)
  | none => some []
  | some .null => some []
  | some (.arr xs) => xs.mapM unmarshalMessage
  | some _ => none

/-- `json.Unmarshal(fileData, &response)`: the document must be an object
(or `null`, which leaves the zero value); each present field must have the
declared type, with `null` leaving the field's zero value; unknown fields
are ignored. -/
def unmarshalResponse : JValue → Option Response
  | .null => some ⟨false, [], [], []⟩
  | .obj kvs => do
    let success ← match jlookup kvs "success" with
      | none => some false
      | some .null => some false
      | some (.bool b) => some b
      | some _ => none
    let result ← match jlookup kvs "result" with
      | none => some []
      | some .null => some []
      | some (.obj o) => some o
      | some _ => none
    let errors ← unmarshalMessages (jlookup kvs "errors")
    let messages ← unmarshalMessages (jlookup kvs "messages")
    some ⟨success, result, errors, messages⟩
  | _ => none

/-- Phase 1 of `writeOutput`: produce the unwrapped mapping.  Bare mode
unmarshals into a `map[string]interface{}` (any JSON object; `null` leaves
the map empty); otherwise the envelope is unmarshalled, `success=false`
aborts with the error messages, and the `result` field is returned. -/
def unwrap (fileData : JValue) (bare : Bool) : Except WError JObj :=
  if bare then
    match fileData with
    | .obj kvs => .ok kvs
    | .null => .ok []
    | _ => .error .parseError
  else
    match unmarshalResponse fileData with
    | none => .error .parseError
    | some response =>
      if response.Success then .ok response.Result
      else .error (.requestFailed (response.Errors.map ResponseMessage.Message))

/-! ### The sink (`json.Marshal`, stdout, files) -/

/-- Lowercase hexadecimal digit. -/
def hexDig (n : Nat) : Char := "0123456789abcdef".data.getD n '0'

/-- One character of Go `encoding/json` string output: `encoding/json`
escapes the quote, backslash and control characters, and (HTML escaping
being on by default) also angle brackets, ampersand, U+2028 and U+2029. -/
def jsonEscapeChar (c : Char) : List Char :=
  if c = '"' then ['\\', '"']
  else if c = '\\' then ['\\', '\\']
  else if c = '\n' then ['\\', 'n']
  else if c = '\r' then ['\\', 'r']
  else if c = '\t' then ['\\', 't']
  else if c = '<' then ['\\', 'u', '0', '0', '3', 'c']
  else if c = '>' then ['\\', 'u', '0', '0', '3', 'e']
  else if c = '&' then ['\\', 'u', '0', '0', '2', '6']
  else if c.toNat < 0x20 then
    ['\\', 'u', '0', '0', hexDig (c.toNat / 16), hexDig (c.toNat % 16)]
  else if c = ' ' then ['\\', 'u', '2', '0', '2', '8']
  else if c = ' ' then ['\\', 'u', '2', '0', '2', '9']
  else [c]

/-- A JSON string literal for `s`, as `encoding/json` renders it. -/
def jsonEncodeString (s : String) : String :=
  String.mk ('"' :: (s.data.map jsonEscapeChar).flatten ++ ['"'])

/-- Go map assignment `dict[k] = v`: overwrite an existing key, else add. -/
def dictInsert (d : List (String × String)) (k v : String) :
    List (String × String) :=
  if d.any (fun p => p.1 = k) then
    d.map (fun p => if p.1 = k then (k, v) else p)
  else d ++ [(k, v)]

/-- Byte-wise string comparison, the order `json.Marshal` sorts map keys in
(UTF-8 is monotone in code points, so code-point order coincides). -/
def charListLt : List Char → List Char → Bool
  | [], [] => false
  | [], _ :: _ => true
  | _ :: _, [] => false
  | a :: as, b :: bs =>
    if a.toNat < b.toNat then true
    else if b.toNat < a.toNat then false
    else charListLt as bs

/-- Insert one entry into a key-sorted association list. -/
def insertSorted (x : String × String) :
    List (String × String) → List (String × String)
  | [] => [x]
  | y :: ys =>
    if charListLt y.1.data x.1.data then y :: insertSorted x ys
    else x :: y :: ys

/-- Sort an association list by key, as `json.Marshal` does for a Go map. -/
def sortByKey (d : List (String × String)) : List (String × String) :=
  d.foldl (fun acc x => insertSorted x acc) []

/-- `json.Marshal` of a `map[string]string`: a single JSON object with the
keys in sorted order. -/
def marshalStringMap (d : List (String × String)) : String :=
  "\x7b" ++
    String.intercalate ","
      ((sortByKey d).map fun p =>
        jsonEncodeString p.1 ++ ":" ++ jsonEncodeString p.2) ++
  "\x7d"

/-- What the sink phase emits: either file writes (filename, contents,
permission bits) or text on standard output. -/
inductive SinkResult where
  | files (writes : List (String × String × Nat))
  | stdout (text : String)
deriving Repr, DecidableEq

/-- Sink phase of `writeOutput`: JSON mode prints the marshalled
filename→contents dictionary (binary contents base64-encoded) plus a
newline; stdout mode prints each artifact's contents (base64-encoded when
binary) followed by a newline; otherwise each artifact is written to its
file with its permissions. -/
def sink (outs : List OutputFile) (stdoutOutput jsonOutput : Bool) : SinkResult :=
  if jsonOutput then
    .stdout
      (marshalStringMap
        (outs.foldl
          (fun d o =>
            dictInsert d o.Filename
              (if o.IsBinary then b64Encode o.Contents else o.Contents))
          []) ++ "\n")
  else if stdoutOutput then
    .stdout
      (String.join
        (outs.map fun o =>
          (if o.IsBinary then b64Encode o.Contents else o.Contents) ++ "\n"))
  else
    .files (outs.map fun o => (o.Filename, o.Contents, o.Perms))

/-- The core `writeOutput(baseName, fileData, bare, stdoutOutput, jsonOutput)`:
unwrap the (already JSON-parsed) input, extract the artifacts, run the sink.
An error models `writeErrorAndExit`/panic: the process dies and no artifact
is produced. -/
def writeOutput (baseName : String) (fileData : JValue)
    (bare stdoutOutput jsonOutput : Bool) :
    Except WError (List OutputFile × SinkResult) :=
  match unwrap fileData bare with
  | .error e => .error e
  | .ok input =>
    match extractFields baseName input with
    | .error e => .error e
    | .ok outs => .ok (outs, sink outs stdoutOutput jsonOutput)

/-! ### Predicates used to state the claims -/

/-- Is this JSON value a string? -/
def isStr : JValue → Bool
  | .str _ => true
  | _ => false

/-- Does this (possibly absent) value hold a string? -/
def isStrVal : Option JValue → Bool
  | some (.str _) => true
  | _ => false

/-- Key `k` is absent from `m` or holds a string.  A present non-string
value under any of the flat extraction keys makes the corresponding
`.(string)` assertion panic, so the run never reaches the later steps. -/
def strOkField (m : JObj) (k : String) : Bool :=
  match jlookup m k with
  | none => true
  | some v => isStr v

/-- All seven flat extraction keys are absent or strings, so the cert, key,
encrypted-key and csr steps all succeed. -/
def flatFieldsOk (m : JObj) : Bool :=
  strOkField m "cert" && strOkField m "certificate" &&
  strOkField m "key" && strOkField m "private_key" &&
  strOkField m "encrypted_key" &&
  strOkField m "csr" && strOkField m "certificate_request"

/-- The bundle step does not abort: either there is no `result.bundle`
mapping, or that mapping holds strings under both `bundle` and `root`. -/
def bundleOk (m : JObj) : Bool :=
  match jlookup m "result" with
  | some (.obj result) =>
    match jlookup result "bundle" with
    | some (.obj bundle) =>
      isStrVal (jlookup bundle "bundle") && isStrVal (jlookup bundle "root")
    | _ => true
  | _ => true

/-! ### Generic helper lemmas -/

theorem str_ext {s t : String} (h : s.data = t.data) : s = t := by
  cases s; cases t; exact congrArg String.mk h

theorem append_ne_of_ne {s t : String} (b : String) (h : s ≠ t) :
    b ++ s ≠ b ++ t := by
  intro heq
  apply h
  have hd : (b ++ s).data = (b ++ t).data := congrArg String.data heq
  rw [String.data_append, String.data_append] at hd
  exact str_ext (List.append_cancel_left hd)

theorem bindE_ok {ε α β : Type} {r : Except ε α} {f : α → Except ε β} {b : β}
    (h : Except.bind r f = .ok b) : ∃ a, r = .ok a ∧ f a = .ok b := by
  cases r with
  | error e => simp [Except.bind] at h
  | ok a => exact ⟨a, rfl, h⟩

theorem asString_of_nonstr {k : String} {v : JValue} (h : isStr v = false) :
    asString k v = .error (.panicTypeAssert k) := by
  cases v <;> first | rfl | simp [isStr] at h

theorem lookupAlias_primary {m : JObj} {k1 : String} (k2 : String) {s : String}
    (h : jlookup m k1 = some (.str s)) : lookupAlias m k1 k2 = .ok s := by
  simp [lookupAlias, h, asString]

theorem lookupAlias_ok_of_strOk {m : JObj} {k1 k2 : String}
    (h1 : strOkField m k1 = true) (h2 : strOkField m k2 = true) :
    ∃ s, lookupAlias m k1 k2 = .ok s := by
  unfold strOkField at h1 h2
  cases hv : jlookup m k1 with
  | some v =>
    rw [hv] at h1
    cases v <;> simp [isStr] at h1
    exact ⟨_, lookupAlias_primary k2 hv⟩
  | none =>
    cases hv2 : jlookup m k2 with
    | some v =>
      rw [hv2] at h2
      cases v with
      | str s => exact ⟨s, by simp [lookupAlias, hv, hv2, asString]⟩
      | num n => simp [isStr] at h2
      | bool bb => simp [isStr] at h2
      | null => simp [isStr] at h2
      | arr a => simp [isStr] at h2
      | obj o => simp [isStr] at h2
    | none => exact ⟨"", by simp [lookupAlias, hv, hv2]⟩

/-! ### Per-step structure lemmas: every successful step appends artifacts
with its own fixed filenames. -/

theorem certStep_names {b : String} {m : JObj} {outs outs' : List OutputFile}
    (h : certStep b m outs = .ok outs') :
    ∃ t, outs' = outs ++ t ∧ ∀ o ∈ t, o.Filename = b ++ ".pem" := by
  cases hla : lookupAlias m "cert" "certificate" with
  | error e => simp [certStep, hla] at h
  | ok cert =>
    simp only [certStep, hla] at h
    injection h with h
    subst h
    refine ⟨_, rfl, ?_⟩
    intro o ho
    by_cases hc : cert = ""
    · rw [if_pos hc] at ho; cases ho
    · rw [if_neg hc] at ho
      rw [List.mem_singleton.mp ho]

theorem keyStep_names {b : String} {m : JObj} {outs outs' : List OutputFile}
    (h : keyStep b m outs = .ok outs') :
    ∃ t, outs' = outs ++ t ∧ ∀ o ∈ t, o.Filename = b ++ "-key.pem" := by
  cases hla : lookupAlias m "key" "private_key" with
  | error e => simp [keyStep, hla] at h
  | ok key =>
    simp only [keyStep, hla] at h
    injection h with h
    subst h
    refine ⟨_, rfl, ?_⟩
    intro o ho
    by_cases hc : key = ""
    · rw [if_pos hc] at ho; cases ho
    · rw [if_neg hc] at ho
      rw [List.mem_singleton.mp ho]

theorem encKeyStep_names {b : String} {m : JObj} {outs outs' : List OutputFile}
    (h : encKeyStep b m outs = .ok outs') :
    ∃ t, outs' = outs ++ t ∧ ∀ o ∈ t, o.Filename = b ++ "-key.enc" := by
  cases hv : jlookup m "encrypted_key" with
  | none =>
    simp only [encKeyStep, hv] at h
    injection h with h
    subst h
    exact ⟨[], by simp, by simp⟩
  | some v =>
    cases hs : asString "encrypted_key" v with
    | error e => simp [encKeyStep, hv, hs] at h
    | ok encKey =>
      simp only [encKeyStep, hv, hs] at h
      injection h with h
      subst h
      refine ⟨_, rfl, ?_⟩
      intro o ho
      rw [List.mem_singleton.mp ho]

theorem csrStep_names {b : String} {m : JObj} {outs outs' : List OutputFile}
    (h : csrStep b m outs = .ok outs') :
    ∃ t, outs' = outs ++ t ∧ ∀ o ∈ t, o.Filename = b ++ ".csr" := by
  cases hla : lookupAlias m "csr" "certificate_request" with
  | error e => simp [csrStep, hla] at h
  | ok csr =>
    simp only [csrStep, hla] at h
    injection h with h
    subst h
    refine ⟨_, rfl, ?_⟩
    intro o ho
    by_cases hc : csr = ""
    · rw [if_pos hc] at ho; cases ho
    · rw [if_neg hc] at ho
      rw [List.mem_singleton.mp ho]

theorem bundleStep_names {b : String} {m : JObj} {outs outs' : List OutputFile}
    (h : bundleStep b m outs = .ok outs') :
    ∃ t, outs' = outs ++ t ∧
      ∀ o ∈ t, o.Filename = b ++ "-bundle.pem" ∨ o.Filename = b ++ "-root.pem" := by
  unfold bundleStep at h
  split at h
  · split at h
    · split at h
      · split at h
        · injection h with h
          subst h
          refine ⟨_, rfl, ?_⟩
          intro o ho
          simp only [List.mem_cons, List.mem_singleton, List.not_mem_nil,
            or_false] at ho
          rcases ho with rfl | rfl
          · left; rfl
          · right; rfl
        · cases h
      · cases h
    · injection h with h; subst h; exact ⟨[], by simp, by simp⟩
  · injection h with h; subst h; exact ⟨[], by simp, by simp⟩

theorem isStrVal_true {ov : Option JValue} (h : isStrVal ov = true) :
    ∃ s, ov = some (.str s) := by
  cases ov with
  | none => simp [isStrVal] at h
  | some v =>
    cases v with
    | str s => exact ⟨s, rfl⟩
    | num n => simp [isStrVal] at h
    | bool bb => simp [isStrVal] at h
    | null => simp [isStrVal] at h
    | arr a => simp [isStrVal] at h
    | obj o => simp [isStrVal] at h

theorem certStep_ok_of (b : String) {m : JObj} (outs : List OutputFile)
    (h1 : strOkField m "cert" = true) (h2 : strOkField m "certificate" = true) :
    ∃ outs', certStep b m outs = .ok outs' := by
  obtain ⟨s, hs⟩ := lookupAlias_ok_of_strOk h1 h2
  exact ⟨outs ++ if s = "" then [] else [⟨b ++ ".pem", s, false, 0o664⟩],
    by simp [certStep, hs]⟩

theorem keyStep_ok_of (b : String) {m : JObj} (outs : List OutputFile)
    (h1 : strOkField m "key" = true) (h2 : strOkField m "private_key" = true) :
    ∃ outs', keyStep b m outs = .ok outs' := by
  obtain ⟨s, hs⟩ := lookupAlias_ok_of_strOk h1 h2
  exact ⟨outs ++ if s = "" then [] else [⟨b ++ "-key.pem", s, false, 0o600⟩],
    by simp [keyStep, hs]⟩

theorem csrStep_ok_of (b : String) {m : JObj} (outs : List OutputFile)
    (h1 : strOkField m "csr" = true)
    (h2 : strOkField m "certificate_request" = true) :
    ∃ outs', csrStep b m outs = .ok outs' := by
  obtain ⟨s, hs⟩ := lookupAlias_ok_of_strOk h1 h2
  exact ⟨outs ++ if s = "" then [] else [⟨b ++ ".csr", s, false, 0o644⟩],
    by simp [csrStep, hs]⟩

theorem encKeyStep_ok_of (b : String) {m : JObj} (outs : List OutputFile)
    (h : strOkField m "encrypted_key" = true) :
    ∃ outs', encKeyStep b m outs = .ok outs' := by
  unfold strOkField at h
  cases hv : jlookup m "encrypted_key" with
  | none => exact ⟨outs, by simp [encKeyStep, hv]⟩
  | some v =>
    rw [hv] at h
    cases v with
    | str s =>
      exact ⟨outs ++ [⟨b ++ "-key.enc", s, true, 0o600⟩],
        by simp [encKeyStep, hv, asString]⟩
    | num n => simp [isStr] at h
    | bool bb => simp [isStr] at h
    | null => simp [isStr] at h
    | arr a => simp [isStr] at h
    | obj o => simp [isStr] at h

theorem bundleStep_ok_of (b : String) {m : JObj} (outs : List OutputFile)
    (h : bundleOk m = true) : ∃ outs', bundleStep b m outs = .ok outs' := by
  cases h1 : jlookup m "result" with
  | none => exact ⟨outs, by simp [bundleStep, h1]⟩
  | some rv =>
    cases rv with
    | obj r =>
      cases h2 : jlookup r "bundle" with
      | none => exact ⟨outs, by simp [bundleStep, h1, h2]⟩
      | some bv =>
        cases bv with
        | obj bdl =>
          simp only [bundleOk, h1, h2] at h
          rw [Bool.and_eq_true] at h
          obtain ⟨cb, hcb⟩ := isStrVal_true h.1
          obtain ⟨rc, hrc⟩ := isStrVal_true h.2
          exact ⟨outs ++
            [⟨b ++ "-bundle.pem", cb ++ "\n" ++ rc, false, 0o644⟩,
             ⟨b ++ "-root.pem", rc, false, 0o644⟩],
            by simp [bundleStep, h1, h2, hcb, hrc]⟩
        | str s => exact ⟨outs, by simp [bundleStep, h1, h2]⟩
        | num n => exact ⟨outs, by simp [bundleStep, h1, h2]⟩
        | bool bb => exact ⟨outs, by simp [bundleStep, h1, h2]⟩
        | null => exact ⟨outs, by simp [bundleStep, h1, h2]⟩
        | arr a => exact ⟨outs, by simp [bundleStep, h1, h2]⟩
    | str s => exact ⟨outs, by simp [bundleStep, h1]⟩
    | num n => exact ⟨outs, by simp [bundleStep, h1]⟩
    | bool bb => exact ⟨outs, by simp [bundleStep, h1]⟩
    | null => exact ⟨outs, by simp [bundleStep, h1]⟩
    | arr a => exact ⟨outs, by simp [bundleStep, h1]⟩

theorem jlookup_filter_ne (m : JObj) (bad k : String) (hk : k ≠ bad) :
    jlookup (m.filter fun p => p.1 != bad) k = jlookup m k := by
  induction m with
  | nil => rfl
  | cons p rest ih =>
    obtain ⟨k1, v⟩ := p
    by_cases h1 : k1 = bad
    · have hb : (k1 != bad) = false := by simp [h1]
      have hkk : ¬ k1 = k := fun hcon => hk (hcon ▸ h1)
      simp [List.filter, hb, jlookup, hkk, ih]
    · by_cases h2 : k1 = k
      · subst h2
        have hb : (k1 != bad) = true := by simp [h1]
        simp [List.filter, hb, jlookup]
      · have hb : (k1 != bad) = true := by simp [h1]
        simp [List.filter, hb, jlookup, h2, ih]

theorem lookupAlias_congr {m m' : JObj} {k1 k2 : String}
    (h1 : jlookup m' k1 = jlookup m k1) (h2 : jlookup m' k2 = jlookup m k2) :
    lookupAlias m' k1 k2 = lookupAlias m k1 k2 := by
  unfold lookupAlias
  rw [h1, h2]

theorem extractFields_parts {b : String} {m : JObj} {outs : List OutputFile}
    (h : extractFields b m = .ok outs) :
    ∃ o1 o2 o3 o4 o5,
      certStep b m [] = .ok o1 ∧ keyStep b m o1 = .ok o2 ∧
      encKeyStep b m o2 = .ok o3 ∧ csrStep b m o3 = .ok o4 ∧
      bundleStep b m o4 = .ok o5 ∧ ocspStep b m o5 = .ok outs := by
  unfold extractFields at h
  obtain ⟨o1, h1, h⟩ := bindE_ok h
  obtain ⟨o2, h2, h⟩ := bindE_ok h
  obtain ⟨o3, h3, h⟩ := bindE_ok h
  obtain ⟨o4, h4, h⟩ := bindE_ok h
  obtain ⟨o5, h5, h6⟩ := bindE_ok h
  exact ⟨o1, o2, o3, o4, o5, h1, h2, h3, h4, h5, h6⟩

theorem writeOutput_ok_inv {base : String} {v : JValue} {bare so jo : Bool}
    {outs : List OutputFile} {sr : SinkResult}
    (h : writeOutput base v bare so jo = .ok (outs, sr)) :
    ∃ input, unwrap v bare = .ok input ∧ extractFields base input = .ok outs ∧
      sr = sink outs so jo := by
  cases hu : unwrap v bare with
  | error e => simp [writeOutput, hu] at h
  | ok input =>
    cases he : extractFields base input with
    | error e => simp [writeOutput, hu, he] at h
    | ok outs2 =>
      simp only [writeOutput, hu, he] at h
      injection h with h
      injection h with h1 h2
      subst h1
      exact ⟨input, rfl, he, h2.symm⟩

theorem ocspStep_names {b : String} {m : JObj} {outs outs' : List OutputFile}
    (h : ocspStep b m outs = .ok outs') :
    ∃ t, outs' = outs ++ t ∧ ∀ o ∈ t, o.Filename = b ++ "-response.der" := by
  cases hv : jlookup m "ocspResponse" with
  | none =>
    simp only [ocspStep, hv] at h
    injection h with h
    subst h
    exact ⟨[], by simp, by simp⟩
  | some v =>
    cases hs : asString "ocspResponse" v with
    | error e => simp [ocspStep, hv, hs] at h
    | ok contents =>
      cases hd : b64Decode contents with
      | none => simp [ocspStep, hv, hs, hd] at h
      | some resp =>
        simp only [ocspStep, hv, hs, hd] at h
        injection h with h
        subst h
        refine ⟨_, rfl, ?_⟩
        intro o ho
        rw [List.mem_singleton.mp ho]

/-! ### The claims -/

/-- C2: in non-bare mode, an envelope with `success=false` makes
`writeOutput` fail with a RequestFailedError carrying each error message's
text for the diagnostic stream; no artifact is produced and extraction is
never reached. -/
theorem claim_C2 (base : String) (v : JValue) (r : Response) (so jo : Bool)
    (hr : unmarshalResponse v = some r) (hs : r.Success = false) :
    writeOutput base v false so jo =
      .error (.requestFailed (r.Errors.map ResponseMessage.Message)) := by
  simp [writeOutput, unwrap, hr, hs]

/-- Witness for C2: a concrete failed envelope with one error message. -/
theorem claim_C2_witness :
    writeOutput "cert"
      (.obj [("success", .bool false),
             ("errors", .arr [.obj [("message", .str "oops")]]),
             ("result", .obj [("cert", .str "X")])])
      false false false = .error (.requestFailed ["oops"]) :=
  claim_C2 "cert" _ ⟨false, [("cert", .str "X")], [⟨0, "oops"⟩], []⟩
    false false rfl rfl

/-- C7: on `{"success":true,"result":{"cert":"CERTDATA","key":"KEYDATA"}}`
with base name `mycert` and JSON output, `writeOutput` emits exactly the two
artifacts and prints exactly the marshalled dictionary plus newline to
stdout; no file is written. -/
theorem claim_C7 :
    writeOutput "mycert"
      (.obj [("success", .bool true),
             ("result", .obj [("cert", .str "CERTDATA"),
                              ("key", .str "KEYDATA")])])
      false true true =
      .ok ([⟨"mycert.pem", "CERTDATA", false, 0o664⟩,
            ⟨"mycert-key.pem", "KEYDATA", false, 0o600⟩],
           .stdout
             "\x7b\"mycert-key.pem\":\"KEYDATA\",\"mycert.pem\":\"CERTDATA\"\x7d\n") :=
  rfl

/-- C10: in bare mode `writeOutput` never consults a success flag: any JSON
object unwraps to itself, unwrapping fails only on input that is not a JSON
object, and a bare object carrying `success:false` and `errors` still
reaches extraction and produces artifacts. -/
theorem claim_C10 :
    (∀ kvs : JObj, unwrap (.obj kvs) true = .ok kvs) ∧
    (∀ (v : JValue) (e : WError), unwrap v true = .error e →
      ∀ kvs : JObj, v ≠ .obj kvs) ∧
    writeOutput "cert"
      (.obj [("success", .bool false),
             ("errors", .arr [.obj [("message", .str "boom")]]),
             ("cert", .str "X")]) true false false =
      .ok ([⟨"cert.pem", "X", false, 0o664⟩],
           .files [("cert.pem", "X", 0o664)]) := by
  refine ⟨fun kvs => rfl, ?_, rfl⟩
  intro v e h kvs hv
  subst hv
  simp [unwrap] at h

/-- Witness for C10: a bare object whose fields are ignored by unwrapping. -/
theorem claim_C10_witness :
    unwrap (.obj [("success", .bool false)]) true =
      .ok [("success", .bool false)] :=
  claim_C10.1 [("success", .bool false)]

/-- Counterexample to C1 as stated: with `result.cert` present as the empty
string (a string value, which the claim explicitly admits), `writeOutput`
completes successfully with no artifact at all — no `<base>.pem` is
emitted, contradicting the claimed unconditional emission. -/
theorem claim_C1_counterexample :
    writeOutput "cert"
      (.obj [("success", .bool true), ("result", .obj [("cert", .str "")])])
      false false false = .ok ([], .files []) :=
  rfl

/-- C1 (amended): for input parsed in non-bare mode as an envelope with
`success=true` whose result maps `cert` to a non-empty string `s`, every
successful run of `writeOutput` emits the artifact `<base>.pem` with
contents exactly `s`, text, mode 0664. -/
theorem claim_C1 (base : String) (v : JValue) (r : Response) (s : String)
    (so jo : Bool) (outs : List OutputFile) (sr : SinkResult)
    (hr : unmarshalResponse v = some r) (hs : r.Success = true)
    (hc : jlookup r.Result "cert" = some (.str s)) (hne : s ≠ "")
    (h : writeOutput base v false so jo = .ok (outs, sr)) :
    (⟨base ++ ".pem", s, false, 0o664⟩ : OutputFile) ∈ outs := by
  obtain ⟨input, hu, he, -⟩ := writeOutput_ok_inv h
  have hun : unwrap v false = .ok r.Result := by simp [unwrap, hr, hs]
  rw [hun] at hu
  injection hu with hu
  subst hu
  obtain ⟨o1, o2, o3, o4, o5, h1, h2, h3, h4, h5, h6⟩ := extractFields_parts he
  have hcert : certStep base r.Result [] =
      .ok [⟨base ++ ".pem", s, false, 0o664⟩] := by
    simp [certStep, lookupAlias_primary "certificate" hc, hne]
  rw [h1] at hcert
  injection hcert with hcert
  subst hcert
  obtain ⟨t2, rfl, -⟩ := keyStep_names h2
  obtain ⟨t3, rfl, -⟩ := encKeyStep_names h3
  obtain ⟨t4, rfl, -⟩ := csrStep_names h4
  obtain ⟨t5, rfl, -⟩ := bundleStep_names h5
  obtain ⟨t6, rfl, -⟩ := ocspStep_names h6
  simp

/-- Witness for C1: the concrete happy-path envelope. -/
theorem claim_C1_witness :
    (⟨"cert" ++ ".pem", "CERTDATA", false, 0o664⟩ : OutputFile) ∈
      ([⟨"cert.pem", "CERTDATA", false, 0o664⟩] : List OutputFile) :=
  claim_C1 "cert"
    (.obj [("success", .bool true), ("result", .obj [("cert", .str "CERTDATA")])])
    ⟨true, [("cert", .str "CERTDATA")], [], []⟩ "CERTDATA" false false
    [⟨"cert.pem", "CERTDATA", false, 0o664⟩]
    (.files [("cert.pem", "CERTDATA", 0o664)])
    rfl rfl rfl (by decide) rfl

/-- Counterexample to C8 as stated: a present non-string `cert` value makes
the extraction die through the Go runtime panic raised by the bare
`contents.(string)` type assertion — an ambiguous crash with a stack trace,
not the claimed clean TypeMismatchError diagnostic (the error is not one of
the `writeErrorAndExit` clean exits). -/
theorem claim_C8_counterexample :
    writeOutput "cert" (.obj [("cert", .num 42)]) true false false =
      .error (.panicTypeAssert "cert") ∧
    WError.isCleanExit (.panicTypeAssert "cert") = false :=
  ⟨rfl, rfl⟩

/-- C8 (amended): when `cert` (or, with `cert` absent, its alias
`certificate`) is present with a non-string value, extraction always fails
loudly — it neither skips the field nor produces artifacts — but it does so
via the runtime type-assertion panic, which is not a clean
`writeErrorAndExit` diagnostic. -/
theorem claim_C8 (b : String) (m : JObj) (v : JValue)
    (h : (jlookup m "cert" = some v ∧ isStr v = false) ∨
         (jlookup m "cert" = none ∧ jlookup m "certificate" = some v ∧
          isStr v = false)) :
    ∃ k, (k = "cert" ∨ k = "certificate") ∧
      extractFields b m = .error (.panicTypeAssert k) ∧
      WError.isCleanExit (.panicTypeAssert k) = false := by
  rcases h with ⟨hc, hns⟩ | ⟨hc, hcc, hns⟩
  · have hla : lookupAlias m "cert" "certificate" =
        .error (.panicTypeAssert "cert") := by
      simp [lookupAlias, hc, asString_of_nonstr hns]
    have hcs : certStep b m [] = .error (.panicTypeAssert "cert") := by
      simp [certStep, hla]
    exact ⟨"cert", Or.inl rfl, by simp [extractFields, hcs, Except.bind], rfl⟩
  · have hla : lookupAlias m "cert" "certificate" =
        .error (.panicTypeAssert "certificate") := by
      simp [lookupAlias, hc, hcc, asString_of_nonstr hns]
    have hcs : certStep b m [] = .error (.panicTypeAssert "certificate") := by
      simp [certStep, hla]
    exact ⟨"certificate", Or.inr rfl,
      by simp [extractFields, hcs, Except.bind], rfl⟩

/-- C3: when the unwrapped mapping has a `result` mapping whose `bundle` key
holds a mapping that lacks a string under `bundle` or under `root` (and the
flat fields are well-typed so the run reaches the bundle step), extraction
aborts with a BundleParseError and `writeOutput` produces zero artifacts. -/
theorem claim_C3 (base : String) (m r bdl : JObj) (so jo : Bool)
    (hf : flatFieldsOk m = true)
    (hr : jlookup m "result" = some (.obj r))
    (hb : jlookup r "bundle" = some (.obj bdl))
    (hmiss : isStrVal (jlookup bdl "bundle") = false ∨
             isStrVal (jlookup bdl "root") = false) :
    ∃ msg, extractFields base m = .error (.bundleParse msg) ∧
      writeOutput base (.obj m) true so jo = .error (.bundleParse msg) := by
  simp only [flatFieldsOk, Bool.and_eq_true] at hf
  obtain ⟨⟨⟨⟨⟨⟨hc, hcc⟩, hk⟩, hpk⟩, hek⟩, hcs⟩, hcr⟩ := hf
  obtain ⟨o1, h1⟩ := certStep_ok_of base [] hc hcc
  obtain ⟨o2, h2⟩ := keyStep_ok_of base o1 hk hpk
  obtain ⟨o3, h3⟩ := encKeyStep_ok_of base o2 hek
  obtain ⟨o4, h4⟩ := csrStep_ok_of base o3 hcs hcr
  have hbundle : ∃ msg, bundleStep base m o4 = .error (.bundleParse msg) := by
    cases h3b : jlookup bdl "bundle" with
    | none =>
      exact ⟨"inner bundle parsing failed!", by simp [bundleStep, hr, hb, h3b]⟩
    | some v =>
      cases v with
      | str cb =>
        have hroot : isStrVal (jlookup bdl "root") = false := by
          rcases hmiss with hm | hm
          · rw [h3b] at hm; simp [isStrVal] at hm
          · exact hm
        cases h4b : jlookup bdl "root" with
        | none =>
          exact ⟨"root parsing failed!", by simp [bundleStep, hr, hb, h3b, h4b]⟩
        | some w =>
          cases w with
          | str s => rw [h4b] at hroot; simp [isStrVal] at hroot
          | num n =>
            exact ⟨"root parsing failed!", by simp [bundleStep, hr, hb, h3b, h4b]⟩
          | bool bb =>
            exact ⟨"root parsing failed!", by simp [bundleStep, hr, hb, h3b, h4b]⟩
          | null =>
            exact ⟨"root parsing failed!", by simp [bundleStep, hr, hb, h3b, h4b]⟩
          | arr a =>
            exact ⟨"root parsing failed!", by simp [bundleStep, hr, hb, h3b, h4b]⟩
          | obj o =>
            exact ⟨"root parsing failed!", by simp [bundleStep, hr, hb, h3b, h4b]⟩
      | num n =>
        exact ⟨"inner bundle parsing failed!", by simp [bundleStep, hr, hb, h3b]⟩
      | bool bb =>
        exact ⟨"inner bundle parsing failed!", by simp [bundleStep, hr, hb, h3b]⟩
      | null =>
        exact ⟨"inner bundle parsing failed!", by simp [bundleStep, hr, hb, h3b]⟩
      | arr a =>
        exact ⟨"inner bundle parsing failed!", by simp [bundleStep, hr, hb, h3b]⟩
      | obj o =>
        exact ⟨"inner bundle parsing failed!", by simp [bundleStep, hr, hb, h3b]⟩
  obtain ⟨msg, h5⟩ := hbundle
  have hext : extractFields base m = .error (.bundleParse msg) := by
    simp [extractFields, h1, h2, h3, h4, h5, Except.bind]
  exact ⟨msg, hext, by simp [writeOutput, unwrap, hext]⟩

/-- Witness for C3: a bundle mapping with `bundle` but no `root`. -/
theorem claim_C3_witness :
    ∃ msg,
      extractFields "cert"
        [("result", JValue.obj [("bundle", JValue.obj [("bundle", JValue.str "B")])])] =
        .error (.bundleParse msg) ∧
      writeOutput "cert"
        (.obj [("result", JValue.obj [("bundle", JValue.obj [("bundle", JValue.str "B")])])])
        true false false = .error (.bundleParse msg) :=
  claim_C3 "cert"
    [("result", JValue.obj [("bundle", JValue.obj [("bundle", JValue.str "B")])])]
    [("bundle", JValue.obj [("bundle", JValue.str "B")])]
    [("bundle", JValue.str "B")]
    false false rfl rfl rfl (Or.inr rfl)

/-- C4: when the unwrapped mapping's `result.bundle` mapping holds strings
`cb` under `bundle` and `rc` under `root`, every successful run emits
exactly the two bundle artifacts, adjacent and in order —
`<base>-bundle.pem` with contents `cb + "\n" + rc` then `<base>-root.pem`
with contents `rc`, both text, mode 0644 — and no other artifact carries
either filename. -/
theorem claim_C4 (base : String) (m r bdl : JObj) (cb rc : String)
    (so jo : Bool) (outs : List OutputFile) (sr : SinkResult)
    (hr : jlookup m "result" = some (.obj r))
    (hb : jlookup r "bundle" = some (.obj bdl))
    (hcb : jlookup bdl "bundle" = some (.str cb))
    (hrc : jlookup bdl "root" = some (.str rc))
    (h : writeOutput base (.obj m) true so jo = .ok (outs, sr)) :
    ∃ pre suf,
      outs = pre ++
        [⟨base ++ "-bundle.pem", cb ++ "\n" ++ rc, false, 0o644⟩,
         ⟨base ++ "-root.pem", rc, false, 0o644⟩] ++ suf ∧
      ∀ o ∈ pre ++ suf, o.Filename ≠ base ++ "-bundle.pem" ∧
        o.Filename ≠ base ++ "-root.pem" := by
  obtain ⟨input, hu, he, -⟩ := writeOutput_ok_inv h
  have hun : unwrap (.obj m) true = .ok m := rfl
  rw [hun] at hu
  injection hu with hu
  subst hu
  obtain ⟨o1, o2, o3, o4, o5, h1, h2, h3, h4, h5, h6⟩ := extractFields_parts he
  have hbun : bundleStep base m o4 =
      .ok (o4 ++
        [⟨base ++ "-bundle.pem", cb ++ "\n" ++ rc, false, 0o644⟩,
         ⟨base ++ "-root.pem", rc, false, 0o644⟩]) := by
    simp [bundleStep, hr, hb, hcb, hrc]
  rw [h5] at hbun
  injection hbun with hbun
  subst hbun
  obtain ⟨t6, rfl, hn6⟩ := ocspStep_names h6
  obtain ⟨t4, rfl, hn4⟩ := csrStep_names h4
  obtain ⟨t3, rfl, hn3⟩ := encKeyStep_names h3
  obtain ⟨t2, rfl, hn2⟩ := keyStep_names h2
  obtain ⟨t1, rfl, hn1⟩ := certStep_names h1
  refine ⟨o1 ++ t2 ++ t3 ++ t4, t6, by simp [List.append_assoc], ?_⟩
  intro o ho
  simp only [List.nil_append, List.mem_append] at ho
  rcases ho with (((ho | ho) | ho) | ho) | ho
  · rw [hn1 o ho]
    exact ⟨append_ne_of_ne base (by decide), append_ne_of_ne base (by decide)⟩
  · rw [hn2 o ho]
    exact ⟨append_ne_of_ne base (by decide), append_ne_of_ne base (by decide)⟩
  · rw [hn3 o ho]
    exact ⟨append_ne_of_ne base (by decide), append_ne_of_ne base (by decide)⟩
  · rw [hn4 o ho]
    exact ⟨append_ne_of_ne base (by decide), append_ne_of_ne base (by decide)⟩
  · rw [hn6 o ho]
    exact ⟨append_ne_of_ne base (by decide), append_ne_of_ne base (by decide)⟩

/-- Witness for C4: a complete bundle produces the two artifacts. -/
theorem claim_C4_witness :
    ∃ pre suf,
      ([⟨"cert-bundle.pem", "B\nR", false, 0o644⟩,
        ⟨"cert-root.pem", "R", false, 0o644⟩] : List OutputFile) = pre ++
        [⟨"cert" ++ "-bundle.pem", "B" ++ "\n" ++ "R", false, 0o644⟩,
         ⟨"cert" ++ "-root.pem", "R", false, 0o644⟩] ++ suf ∧
      ∀ o ∈ pre ++ suf, o.Filename ≠ "cert" ++ "-bundle.pem" ∧
        o.Filename ≠ "cert" ++ "-root.pem" :=
  claim_C4 "cert"
    [("result", JValue.obj [("bundle",
        JValue.obj [("bundle", JValue.str "B"), ("root", JValue.str "R")])])]
    [("bundle", JValue.obj [("bundle", JValue.str "B"), ("root", JValue.str "R")])]
    [("bundle", JValue.str "B"), ("root", JValue.str "R")]
    "B" "R" false false
    [⟨"cert-bundle.pem", "B\nR", false, 0o644⟩,
     ⟨"cert-root.pem", "R", false, 0o644⟩]
    (.files [("cert-bundle.pem", "B\nR", 0o644), ("cert-root.pem", "R", 0o644)])
    rfl rfl rfl rfl rfl

/-- C5: when both `cert` and `certificate` are present with string values,
the value under `cert` wins: extraction is unchanged if every `certificate`
entry is removed (the alias is consulted only when `cert` is absent), every
emitted `<base>.pem` artifact carries the `cert` value, and for non-empty
`cert` that artifact is emitted. -/
theorem claim_C5 (base : String) (m : JObj) (s : String) (v : JValue)
    (hc : jlookup m "cert" = some (.str s))
    (hcc : jlookup m "certificate" = some v) :
    extractFields base m =
      extractFields base (m.filter fun p => p.1 != "certificate") ∧
    (∀ (so jo : Bool) (outs : List OutputFile) (sr : SinkResult),
      writeOutput base (.obj m) true so jo = .ok (outs, sr) →
      (∀ o ∈ outs, o.Filename = base ++ ".pem" → o.Contents = s) ∧
      (s ≠ "" → (⟨base ++ ".pem", s, false, 0o664⟩ : OutputFile) ∈ outs)) := by
  have hfil : ∀ k, k ≠ "certificate" →
      jlookup (m.filter fun p => p.1 != "certificate") k = jlookup m k :=
    fun k hk => jlookup_filter_ne m "certificate" k hk
  constructor
  · have hca : lookupAlias (m.filter fun p => p.1 != "certificate")
        "cert" "certificate" = lookupAlias m "cert" "certificate" := by
      unfold lookupAlias
      rw [hfil "cert" (by decide), hc]
    have e1 : ∀ outs, certStep base (m.filter fun p => p.1 != "certificate") outs =
        certStep base m outs := by
      intro outs; unfold certStep; rw [hca]
    have e2 : ∀ outs, keyStep base (m.filter fun p => p.1 != "certificate") outs =
        keyStep base m outs := by
      intro outs; unfold keyStep
      rw [lookupAlias_congr (hfil "key" (by decide)) (hfil "private_key" (by decide))]
    have e3 : ∀ outs, encKeyStep base (m.filter fun p => p.1 != "certificate") outs =
        encKeyStep base m outs := by
      intro outs; unfold encKeyStep; rw [hfil "encrypted_key" (by decide)]
    have e4 : ∀ outs, csrStep base (m.filter fun p => p.1 != "certificate") outs =
        csrStep base m outs := by
      intro outs; unfold csrStep
      rw [lookupAlias_congr (hfil "csr" (by decide))
        (hfil "certificate_request" (by decide))]
    have e5 : ∀ outs, bundleStep base (m.filter fun p => p.1 != "certificate") outs =
        bundleStep base m outs := by
      intro outs; unfold bundleStep; rw [hfil "result" (by decide)]
    have e6 : ∀ outs, ocspStep base (m.filter fun p => p.1 != "certificate") outs =
        ocspStep base m outs := by
      intro outs; unfold ocspStep; rw [hfil "ocspResponse" (by decide)]
    simp only [extractFields, e1, e2, e3, e4, e5, e6]
  · intro so jo outs sr h
    obtain ⟨input, hu, he, -⟩ := writeOutput_ok_inv h
    have hun : unwrap (.obj m) true = .ok m := rfl
    rw [hun] at hu
    injection hu with hu
    subst hu
    obtain ⟨o1, o2, o3, o4, o5, h1, h2, h3, h4, h5, h6⟩ := extractFields_parts he
    have hcert : certStep base m [] =
        .ok (if s = "" then [] else [⟨base ++ ".pem", s, false, 0o664⟩]) := by
      simp [certStep, lookupAlias_primary "certificate" hc]
    rw [h1] at hcert
    injection hcert with hcert
    subst hcert
    obtain ⟨t2, rfl, hn2⟩ := keyStep_names h2
    obtain ⟨t3, rfl, hn3⟩ := encKeyStep_names h3
    obtain ⟨t4, rfl, hn4⟩ := csrStep_names h4
    obtain ⟨t5, rfl, hn5⟩ := bundleStep_names h5
    obtain ⟨t6, rfl, hn6⟩ := ocspStep_names h6
    constructor
    · intro o ho hname
      simp only [List.mem_append] at ho
      rcases ho with ((((ho | ho) | ho) | ho) | ho) | ho
      · by_cases hs0 : s = ""
        · rw [if_pos hs0] at ho; cases ho
        · rw [if_neg hs0] at ho
          rw [List.mem_singleton.mp ho]
      · rw [hn2 o ho] at hname
        exact absurd hname (append_ne_of_ne base (by decide))
      · rw [hn3 o ho] at hname
        exact absurd hname (append_ne_of_ne base (by decide))
      · rw [hn4 o ho] at hname
        exact absurd hname (append_ne_of_ne base (by decide))
      · rcases hn5 o ho with hb | hb <;> rw [hb] at hname <;>
          exact absurd hname (append_ne_of_ne base (by decide))
      · rw [hn6 o ho] at hname
        exact absurd hname (append_ne_of_ne base (by decide))
    · intro hs0
      simp [hs0]

/-- Witness for C5: `cert` and `certificate` both present; `cert` wins. -/
theorem claim_C5_witness :
    (extractFields "cert"
        [("cert", JValue.str "A"), ("certificate", JValue.str "B")] =
      extractFields "cert"
        (([("cert", JValue.str "A"), ("certificate", JValue.str "B")] : JObj).filter
          fun p => p.1 != "certificate")) ∧
    ((∀ o ∈ ([⟨"cert.pem", "A", false, 0o664⟩] : List OutputFile),
        o.Filename = "cert" ++ ".pem" → o.Contents = "A") ∧
     ("A" ≠ "" → (⟨"cert" ++ ".pem", "A", false, 0o664⟩ : OutputFile) ∈
        ([⟨"cert.pem", "A", false, 0o664⟩] : List OutputFile))) := by
  have h := claim_C5 "cert"
    [("cert", JValue.str "A"), ("certificate", JValue.str "B")]
    "A" (JValue.str "B") rfl rfl
  exact ⟨h.1, h.2 false false [⟨"cert.pem", "A", false, 0o664⟩]
    (.files [("cert.pem", "A", 0o664)]) rfl⟩

/-- C6: a present `ocspResponse` string that decodes as standard base64
yields the artifact `<base>-response.der`, binary, mode 0644, whose contents
are exactly the decoded bytes; a string that fails to decode aborts the run
with a Base64DecodeError carrying the undecodable value, and zero artifacts
are produced. -/
theorem claim_C6 :
    (∀ (base s bytes : String) (m : JObj) (so jo : Bool)
        (outs : List OutputFile) (sr : SinkResult),
      jlookup m "ocspResponse" = some (.str s) →
      b64Decode s = some bytes →
      writeOutput base (.obj m) true so jo = .ok (outs, sr) →
      (⟨base ++ "-response.der", bytes, true, 0o644⟩ : OutputFile) ∈ outs) ∧
    (∀ (base s : String) (m : JObj),
      flatFieldsOk m = true → bundleOk m = true →
      jlookup m "ocspResponse" = some (.str s) →
      b64Decode s = none →
      extractFields base m = .error (.base64Decode s) ∧
      ∀ so jo : Bool,
        writeOutput base (.obj m) true so jo = .error (.base64Decode s)) := by
  constructor
  · intro base s bytes m so jo outs sr hosp hdec h
    obtain ⟨input, hu, he, -⟩ := writeOutput_ok_inv h
    have hun : unwrap (.obj m) true = .ok m := rfl
    rw [hun] at hu
    injection hu with hu
    subst hu
    obtain ⟨o1, o2, o3, o4, o5, h1, h2, h3, h4, h5, h6⟩ := extractFields_parts he
    have ho : ocspStep base m o5 =
        .ok (o5 ++ [⟨base ++ "-response.der", bytes, true, 0o644⟩]) := by
      simp [ocspStep, hosp, asString, hdec]
    rw [h6] at ho
    injection ho with ho
    subst ho
    simp
  · intro base s m hf hbo hosp hdec
    simp only [flatFieldsOk, Bool.and_eq_true] at hf
    obtain ⟨⟨⟨⟨⟨⟨hc, hcc⟩, hk⟩, hpk⟩, hek⟩, hcs⟩, hcr⟩ := hf
    obtain ⟨o1, h1⟩ := certStep_ok_of base [] hc hcc
    obtain ⟨o2, h2⟩ := keyStep_ok_of base o1 hk hpk
    obtain ⟨o3, h3⟩ := encKeyStep_ok_of base o2 hek
    obtain ⟨o4, h4⟩ := csrStep_ok_of base o3 hcs hcr
    obtain ⟨o5, h5⟩ := bundleStep_ok_of base o4 hbo
    have h6 : ocspStep base m o5 = .error (.base64Decode s) := by
      simp [ocspStep, hosp, asString, hdec]
    have hext : extractFields base m = .error (.base64Decode s) := by
      simp [extractFields, h1, h2, h3, h4, h5, h6, Except.bind]
    exact ⟨hext, fun so jo => by simp [writeOutput, unwrap, hext]⟩

/-- Witness for C6: `MAM=` decodes to the two bytes `0x30 0x03`; `!!` fails
to decode. -/
theorem claim_C6_witness :
    ((⟨"cert" ++ "-response.der", "0\x03", true, 0o644⟩ : OutputFile) ∈
      ([⟨"cert-response.der", "0\x03", true, 0o644⟩] : List OutputFile)) ∧
    extractFields "cert" [("ocspResponse", JValue.str "!!")] =
      .error (.base64Decode "!!") :=
  ⟨claim_C6.1 "cert" "MAM=" "0\x03" [("ocspResponse", JValue.str "MAM=")]
      false false [⟨"cert-response.der", "0\x03", true, 0o644⟩]
      (.files [("cert-response.der", "0\x03", 0o644)]) rfl rfl rfl,
   (claim_C6.2 "cert" "!!" [("ocspResponse", JValue.str "!!")]
      rfl rfl rfl rfl).1⟩

/-- C9: a present `encrypted_key` string — the empty string included — always
yields the `<base>-key.enc` artifact, binary, mode 0600, with the raw value
as contents; by contrast `cert`, `key` and `csr` emit no artifact when their
value is the empty string. -/
theorem claim_C9 :
    (∀ (base s : String) (m : JObj) (so jo : Bool) (outs : List OutputFile)
        (sr : SinkResult),
      jlookup m "encrypted_key" = some (.str s) →
      writeOutput base (.obj m) true so jo = .ok (outs, sr) →
      (⟨base ++ "-key.enc", s, true, 0o600⟩ : OutputFile) ∈ outs) ∧
    (∀ (base : String) (m : JObj) (so jo : Bool) (outs : List OutputFile)
        (sr : SinkResult),
      jlookup m "cert" = some (.str "") →
      writeOutput base (.obj m) true so jo = .ok (outs, sr) →
      ∀ o ∈ outs, o.Filename ≠ base ++ ".pem") ∧
    (∀ (base : String) (m : JObj) (so jo : Bool) (outs : List OutputFile)
        (sr : SinkResult),
      jlookup m "key" = some (.str "") →
      writeOutput base (.obj m) true so jo = .ok (outs, sr) →
      ∀ o ∈ outs, o.Filename ≠ base ++ "-key.pem") ∧
    (∀ (base : String) (m : JObj) (so jo : Bool) (outs : List OutputFile)
        (sr : SinkResult),
      jlookup m "csr" = some (.str "") →
      writeOutput base (.obj m) true so jo = .ok (outs, sr) →
      ∀ o ∈ outs, o.Filename ≠ base ++ ".csr") := by
  refine ⟨?_, ?_, ?_, ?_⟩
  · intro base s m so jo outs sr henc h
    obtain ⟨input, hu, he, -⟩ := writeOutput_ok_inv h
    have hun : unwrap (.obj m) true = .ok m := rfl
    rw [hun] at hu
    injection hu with hu
    subst hu
    obtain ⟨o1, o2, o3, o4, o5, h1, h2, h3, h4, h5, h6⟩ := extractFields_parts he
    have hek : encKeyStep base m o2 =
        .ok (o2 ++ [⟨base ++ "-key.enc", s, true, 0o600⟩]) := by
      simp [encKeyStep, henc, asString]
    rw [h3] at hek
    injection hek with hek
    subst hek
    obtain ⟨t4, rfl, -⟩ := csrStep_names h4
    obtain ⟨t5, rfl, -⟩ := bundleStep_names h5
    obtain ⟨t6, rfl, -⟩ := ocspStep_names h6
    simp
  · intro base m so jo outs sr hc h
    obtain ⟨input, hu, he, -⟩ := writeOutput_ok_inv h
    have hun : unwrap (.obj m) true = .ok m := rfl
    rw [hun] at hu
    injection hu with hu
    subst hu
    obtain ⟨o1, o2, o3, o4, o5, h1, h2, h3, h4, h5, h6⟩ := extractFields_parts he
    have hcert : certStep base m [] = .ok [] := by
      simp [certStep, lookupAlias_primary "certificate" hc]
    rw [h1] at hcert
    injection hcert with hcert
    subst hcert
    obtain ⟨t2, rfl, hn2⟩ := keyStep_names h2
    obtain ⟨t3, rfl, hn3⟩ := encKeyStep_names h3
    obtain ⟨t4, rfl, hn4⟩ := csrStep_names h4
    obtain ⟨t5, rfl, hn5⟩ := bundleStep_names h5
    obtain ⟨t6, rfl, hn6⟩ := ocspStep_names h6
    intro o ho
    simp only [List.nil_append, List.mem_append] at ho
    rcases ho with (((ho | ho) | ho) | ho) | ho
    · rw [hn2 o ho]; exact append_ne_of_ne base (by decide)
    · rw [hn3 o ho]; exact append_ne_of_ne base (by decide)
    · rw [hn4 o ho]; exact append_ne_of_ne base (by decide)
    · rcases hn5 o ho with hname | hname <;> rw [hname] <;>
        exact append_ne_of_ne base (by decide)
    · rw [hn6 o ho]; exact append_ne_of_ne base (by decide)
  · intro base m so jo outs sr hk h
    obtain ⟨input, hu, he, -⟩ := writeOutput_ok_inv h
    have hun : unwrap (.obj m) true = .ok m := rfl
    rw [hun] at hu
    injection hu with hu
    subst hu
    obtain ⟨o1, o2, o3, o4, o5, h1, h2, h3, h4, h5, h6⟩ := extractFields_parts he
    have hkey : keyStep base m o1 = .ok o1 := by
      simp [keyStep, lookupAlias_primary "private_key" hk]
    rw [h2] at hkey
    injection hkey with hkey
    subst hkey
    obtain ⟨t1, rfl, hn1⟩ := certStep_names h1
    obtain ⟨t3, rfl, hn3⟩ := encKeyStep_names h3
    obtain ⟨t4, rfl, hn4⟩ := csrStep_names h4
    obtain ⟨t5, rfl, hn5⟩ := bundleStep_names h5
    obtain ⟨t6, rfl, hn6⟩ := ocspStep_names h6
    intro o ho
    simp only [List.nil_append, List.mem_append] at ho
    rcases ho with (((ho | ho) | ho) | ho) | ho
    · rw [hn1 o ho]; exact append_ne_of_ne base (by decide)
    · rw [hn3 o ho]; exact append_ne_of_ne base (by decide)
    · rw [hn4 o ho]; exact append_ne_of_ne base (by decide)
    · rcases hn5 o ho with hname | hname <;> rw [hname] <;>
        exact append_ne_of_ne base (by decide)
    · rw [hn6 o ho]; exact append_ne_of_ne base (by decide)
  · intro base m so jo outs sr hcsr h
    obtain ⟨input, hu, he, -⟩ := writeOutput_ok_inv h
    have hun : unwrap (.obj m) true = .ok m := rfl
    rw [hun] at hu
    injection hu with hu
    subst hu
    obtain ⟨o1, o2, o3, o4, o5, h1, h2, h3, h4, h5, h6⟩ := extractFields_parts he
    have hcs : csrStep base m o3 = .ok o3 := by
      simp [csrStep, lookupAlias_primary "certificate_request" hcsr]
    rw [h4] at hcs
    injection hcs with hcs
    subst hcs
    obtain ⟨t1, rfl, hn1⟩ := certStep_names h1
    obtain ⟨t2, rfl, hn2⟩ := keyStep_names h2
    obtain ⟨t3, rfl, hn3⟩ := encKeyStep_names h3
    obtain ⟨t5, rfl, hn5⟩ := bundleStep_names h5
    obtain ⟨t6, rfl, hn6⟩ := ocspStep_names h6
    intro o ho
    simp only [List.nil_append, List.mem_append] at ho
    rcases ho with (((ho | ho) | ho) | ho) | ho
    · rw [hn1 o ho]; exact append_ne_of_ne base (by decide)
    · rw [hn2 o ho]; exact append_ne_of_ne base (by decide)
    · rw [hn3 o ho]; exact append_ne_of_ne base (by decide)
    · rcases hn5 o ho with hname | hname <;> rw [hname] <;>
        exact append_ne_of_ne base (by decide)
    · rw [hn6 o ho]; exact append_ne_of_ne base (by decide)

/-- Witness for C9: an empty `encrypted_key` still produces its artifact,
while an empty `cert` in the same input produces no `<base>.pem`. -/
theorem claim_C9_witness :
    ((⟨"c" ++ "-key.enc", "", true, 0o600⟩ : OutputFile) ∈
      ([⟨"c-key.enc", "", true, 0o600⟩] : List OutputFile)) ∧
    (∀ o ∈ ([⟨"c-key.enc", "", true, 0o600⟩] : List OutputFile),
      o.Filename ≠ "c" ++ ".pem") :=
  ⟨claim_C9.1 "c" "" [("cert", .str ""), ("encrypted_key", .str "")]
      false false [⟨"c-key.enc", "", true, 0o600⟩]
      (.files [("c-key.enc", "", 0o600)]) rfl rfl,
   claim_C9.2.1 "c" [("cert", .str ""), ("encrypted_key", .str "")]
      false false [⟨"c-key.enc", "", true, 0o600⟩]
      (.files [("c-key.enc", "", 0o600)]) rfl rfl⟩

/-- Witness for C8: the amended theorem at `{"cert": 42}`. -/
theorem claim_C8_witness :
    ∃ k, (k = "cert" ∨ k = "certificate") ∧
      extractFields "cert" [("cert", JValue.num 42)] =
        .error (.panicTypeAssert k) ∧
      WError.isCleanExit (.panicTypeAssert k) = false :=
  claim_C8 "cert" [("cert", JValue.num 42)] (JValue.num 42) (Or.inl ⟨rfl, rfl⟩)

